import Mathlib

/-!
# MSVC STL decompile guide (x86): struct layouts and decompilation hints

A shallow embedding of `STL_DECOMPILE_GUIDE_x86.h`.  The header declares the
in-memory shape of `string`, `vector<T>`, `map_node<K, V>`, `map`,
`list_node<T>`, `list` and `bitset`, and gives, for each of them, the
decompiled code that touches it.  The struct declarations are embedded as
field lists, laid out by the C struct layout rule of the 32-bit target; the
decompilation hints are embedded as operations on 32-bit words and on a
byte-addressed little-endian memory.
-/

namespace STLGuide

/-! ## Types of the 32-bit target -/

/-- What the layout rule needs of a C type: `sizeof` and `alignof`, in bytes. -/
structure CType where
  size : Nat
  align : Nat
deriving DecidableEq, Repr

/-- Modelled from the spec: the header uses the built-in and Windows types
`char`, `bool`, `DWORD`, `size_t`, `float`, `unsigned long`,
`unsigned long long` and pointers without declaring them; their sizes are those
of the x86 target the header is written for (1-byte `char` and `bool`, 4-byte
pointer, `DWORD`, `size_t`, `float` and `unsigned long`, 8-byte
`unsigned long long`). -/
def char : CType := ⟨1, 1⟩

/-- Modelled from the spec: `bool` is one byte. -/
def bool : CType := ⟨1, 1⟩

/-- Modelled from the spec: `DWORD` is a 4-byte unsigned integer. -/
def DWORD : CType := ⟨4, 4⟩

/-- Modelled from the spec: `size_t` is 4 bytes on the 32-bit target. -/
def size_t : CType := ⟨4, 4⟩

/-- Modelled from the spec: `float` is 4 bytes. -/
def float : CType := ⟨4, 4⟩

/-- Modelled from the spec: `unsigned long` is 4 bytes. -/
def unsigned_long : CType := ⟨4, 4⟩

/-- Modelled from the spec: `unsigned long long` is 8 bytes. -/
def unsigned_long_long : CType := ⟨8, 8⟩

/-- Modelled from the spec: every data pointer `T*` is 4 bytes, whatever `T`. -/
def ptr : CType := ⟨4, 4⟩

/-- The array type `T[n]`. -/
def arrayOf (T : CType) (n : Nat) : CType := ⟨T.size * n, T.align⟩

/-- Round `n` up to the next multiple of `a`. -/
def roundUp (n a : Nat) : Nat := (n + a - 1) / a * a

/-- A named member of a struct or union. -/
structure Field where
  name : String
  ty : CType
deriving DecidableEq, Repr

/-- A member placed in its struct: name, byte offset, byte size. -/
structure Slot where
  name : String
  offset : Nat
  size : Nat
deriving DecidableEq, Repr

/-- The (offset, size) pair of a placed member. -/
def Slot.pair (s : Slot) : Nat × Nat := (s.offset, s.size)

/-- Alignment of a struct or union: the largest alignment of a member. -/
def alignOfFields : List Field → Nat
  | [] => 1
  | f :: fs => max f.ty.align (alignOfFields fs)

/-- Place the members one after the other, starting at byte `off`, each at the
next offset that is a multiple of its alignment. -/
def layoutFrom (off : Nat) : List Field → List Slot
  | [] => []
  | f :: fs =>
    let o := roundUp off f.ty.align
    ⟨f.name, o, f.ty.size⟩ :: layoutFrom (o + f.ty.size) fs

/-- The layout of a struct: its members in declaration order. -/
def layout (fs : List Field) : List Slot := layoutFrom 0 fs

/-- First byte after the last member when the members are placed from `off`. -/
def endFrom (off : Nat) : List Field → Nat
  | [] => off
  | f :: fs => endFrom (roundUp off f.ty.align + f.ty.size) fs

/-- The value of `sizeof` for a struct: the end of the last member, padded to
the alignment of the struct. -/
def sizeOfStruct (fs : List Field) : Nat := roundUp (endFrom 0 fs) (alignOfFields fs)

/-- A struct used as a type. -/
def structOf (fs : List Field) : CType := ⟨sizeOfStruct fs, alignOfFields fs⟩

/-- Largest member size of a union. -/
def maxSizeOfFields : List Field → Nat
  | [] => 0
  | f :: fs => max f.ty.size (maxSizeOfFields fs)

/-- A union used as a type: all members at offset 0. -/
def unionOf (fs : List Field) : CType :=
  ⟨roundUp (maxSizeOfFields fs) (alignOfFields fs), alignOfFields fs⟩

/-- Byte offset of the member called `name`. -/
def offsetOf (fs : List Field) (name : String) : Option Nat :=
  ((layout fs).find? (fun s => s.name == name)).map Slot.offset

/-- The (offset, size) pairs of a struct, in declaration order. -/
def shape (fs : List Field) : List (Nat × Nat) := (layout fs).map Slot.pair

/-- Every member ends at or before the start of the next one. -/
def nonOverlapping : List (Nat × Nat) → Bool
  | [] => true
  | [_] => true
  | a :: b :: rest => decide (a.1 + a.2 ≤ b.1) && nonOverlapping (b :: rest)

/-- The widest member of a struct: the first one of the largest size. -/
def widestField : List Field → Option Field
  | [] => none
  | f :: fs =>
    match widestField fs with
    | none => some f
    | some g => if g.ty.size > f.ty.size then some g else some f

/-! ## The structs of the guide -/

/-- The local buffer `char lstr[16]` of `string`. -/
def lstr : CType := arrayOf char 16

/-- The anonymous union of `string`: `char* pstr` or `char lstr[16]`. -/
def string_union : List Field := [⟨"pstr", ptr⟩, ⟨"lstr", lstr⟩]

/-- The struct `string`: the union, then `DWORD size, max`. -/
def string : List Field :=
  [⟨"", unionOf string_union⟩, ⟨"size", DWORD⟩, ⟨"max", DWORD⟩]

/-- The struct `vector<T>`: `T *start, *end, *max`. -/
def vector (_T : CType) : List Field :=
  [⟨"start", ptr⟩, ⟨"end", ptr⟩, ⟨"max", ptr⟩]

/-- The struct `map_node<K, V>`. -/
def map_node (K V : CType) : List Field :=
  [⟨"left", ptr⟩, ⟨"right", ptr⟩, ⟨"parent", ptr⟩,
   ⟨"bIsFirstNode", bool⟩, ⟨"bColor", bool⟩, ⟨"key", K⟩, ⟨"value", V⟩]

/-- The struct `map`: `map_node* head; DWORD size`. -/
def map : List Field := [⟨"head", ptr⟩, ⟨"size", DWORD⟩]

/-- The struct `list_node<T>`: `forward`, `back`, `T value`. -/
def list_node (T : CType) : List Field :=
  [⟨"forward", ptr⟩, ⟨"back", ptr⟩, ⟨"value", T⟩]

/-- The struct `list`: `list_node* head; size_t size`. -/
def list : List Field := [⟨"head", ptr⟩, ⟨"size", size_t⟩]

/-- The extent of the word array of `bitset`:
`nBits / sizeof(word) / 8`, in integer division. -/
def bitset_extent (word : CType) (nBits : Nat) : Nat := nBits / word.size / 8

/-- The struct `bitset`: `word bits[nBits / sizeof(word) / 8]`. -/
def bitset (word : CType) (nBits : Nat) : List Field :=
  [⟨"bits", arrayOf word (bitset_extent word nBits)⟩]

/-- A C type is well formed when its alignment is positive and divides its
size, as `sizeof` is always a multiple of `alignof`. -/
def CType.valid (T : CType) : Prop := 0 < T.align ∧ T.align ∣ T.size

/-- Members are in increasing order of offset. -/
def offsetMonotonic : List (Nat × Nat) → Bool
  | [] => true
  | [_] => true
  | a :: b :: rest => decide (a.1 ≤ b.1) && offsetMonotonic (b :: rest)

/-- The offset plus size of the last member (0 when there is none). -/
def lastEnd : List (Nat × Nat) → Nat
  | [] => 0
  | [a] => a.1 + a.2
  | _ :: b :: rest => lastEnd (b :: rest)

/-- Alignment of the widest member of a struct (1 when there is none). -/
def widestAlign (fs : List Field) : Nat :=
  match widestField fs with
  | none => 1
  | some f => f.ty.align

/-! ## Memory of the 32-bit target -/

/-- Byte-addressed memory: the byte stored at each address. -/
def Mem : Type := Nat → Nat

/-- Store the `w` low bytes of `v` at address `a`, least significant first. -/
def writeLE (m : Mem) (a w v : Nat) : Mem :=
  fun x => if a ≤ x ∧ x < a + w then v / 256 ^ (x - a) % 256 else m x

/-- Load the `w`-byte little-endian word at address `a`. -/
def readLE (m : Mem) (a : Nat) : Nat → Nat
  | 0 => 0
  | w + 1 => m a % 256 + 256 * readLE m (a + 1) w

/-- Byte offset of element `i` in an array of `T`. -/
def elemOffset (T : CType) (i : Nat) : Nat := T.size * i

/-- The statement `v[i] = val` for `v` the address of an array of DWORDs. -/
def storeDword (m : Mem) (v i val : Nat) : Mem :=
  writeLE m ((v + elemOffset DWORD i) % 2 ^ 32) DWORD.size (val % 2 ^ 32)

/-- The value of `v[i]` for `v` the address of an array of DWORDs. -/
def loadDword (m : Mem) (v i : Nat) : Nat :=
  readLE m ((v + elemOffset DWORD i) % 2 ^ 32) DWORD.size

/-- The statement `*(v + off) = val` for `v` an address held in an integer
variable, storing `w` bytes. -/
def storeAt (m : Mem) (v off w val : Nat) : Mem :=
  writeLE m ((v + off) % 2 ^ 32) w val

/-- The member of `w` bytes at byte offset `off` of the object at address `v`. -/
def loadAt (m : Mem) (v off w : Nat) : Nat :=
  readLE m ((v + off) % 2 ^ 32) w

/-- Unsigned 32-bit subtraction `a - b`. -/
def sub32 (a b : Nat) : Nat := (a % 2 ^ 32 + 2 ^ 32 - b % 2 ^ 32) % 2 ^ 32

/-! ## Decompilation hints -/

/-- Hint for a string: `v1[0] = 0; v1[4] = 0; v1[5] = 15;`. -/
def string_hint (m : Mem) (v1 : Nat) : Mem :=
  storeDword (storeDword (storeDword m v1 0 0) v1 4 0) v1 5 15

/-- Hint for a vector: `v1[0] = 0; v1[1] = 0; v1[2] = 0;`. -/
def vector_hint (m : Mem) (v1 : Nat) : Mem :=
  storeDword (storeDword (storeDword m v1 0 0) v1 1 0) v1 2 0

/-- Hint for the size of a vector: `v3 = (v1 - *v2) / sizeof(T);` with `v1` the
end pointer and `v2` the address of the vector, whose first DWORD is the start
pointer.  `sizeof(T)` is a `size_t`, so subtraction and division are unsigned
32-bit operations. -/
def vector_size_hint (m : Mem) (v1 v2 sizeofT : Nat) : Nat :=
  sub32 v1 (loadDword m v2 0) / sizeofT

/-- Hint for the first node of a map:
`*v4 = v4; *(v4 + 4) = v4; *(v4 + 8) = v4; *(v4 + 12) = 257;`
where the last store is `w` bytes wide. -/
def map_sentinel_hint (m : Mem) (v4 w : Nat) : Mem :=
  storeAt (storeAt (storeAt (storeAt m v4 0 ptr.size v4) v4 4 ptr.size v4) v4 8 ptr.size v4)
    v4 12 w 257

/-- The value of a `bool` in memory. -/
def boolByte (b : Bool) : Nat := if b then 1 else 0

/-- Store the two flags of a `map_node` at address `v4`, each in its byte. -/
def store_flags (m : Mem) (v4 : Nat) (bIsFirstNode bColor : Bool) : Mem :=
  storeAt (storeAt m v4 12 bool.size (boolByte bIsFirstNode)) v4 13 bool.size (boolByte bColor)

/-- The constant of the list hint `if ( v49[1] == 357913941 )`. -/
def list_max_elements : Nat := 357913941

/-- The test of the list hint: the list is too long to grow. -/
def list_too_long (size : Nat) : Bool := size == list_max_elements

/-- The test `if ( v5 >= 256 ) break;` of the bitset hint. -/
def bitset_guard (v5 : Nat) : Bool := decide (v5 ≥ 256)

/-- Index `v5 >> shift` of the word that holds bit `v5`. -/
def bitset_word_index (shift v5 : Nat) : Nat := v5 >>> shift

/-- The DWORD index `2 * (v5 >> 6)` of the bitset hint
`v7 = &v2[2 * (v5 >> 6)];`. -/
def bitset_dword_index (v5 : Nat) : Nat := 2 * bitset_word_index 6 v5 % 2 ^ 32

/-! ## Memory lemmas -/

theorem writeLE_inside (m : Mem) (a w v x : Nat) (h1 : a ≤ x) (h2 : x < a + w) :
    writeLE m a w v x = v / 256 ^ (x - a) % 256 := by
  simp [writeLE, h1, h2]

theorem writeLE_outside (m : Mem) (a w v x : Nat) (h : x < a ∨ a + w ≤ x) :
    writeLE m a w v x = m x := by
  have hno : ¬ (a ≤ x ∧ x < a + w) := by omega
  simp [writeLE, hno]

theorem readLE_congr (m m' : Mem) (w : Nat) : ∀ a : Nat,
    (∀ x, a ≤ x → x < a + w → m x = m' x) → readLE m a w = readLE m' a w := by
  induction w with
  | zero => intro a _; rfl
  | succ w ih =>
    intro a h
    simp only [readLE]
    rw [h a (le_refl a) (by omega), ih (a + 1) (fun x hx1 hx2 => h x (by omega) (by omega))]

theorem readLE_writeLE_same (m : Mem) (w : Nat) : ∀ a v : Nat,
    readLE (writeLE m a w v) a w = v % 256 ^ w := by
  induction w with
  | zero => intro a v; simp [readLE, Nat.mod_one]
  | succ w ih =>
    intro a v
    simp only [readLE]
    have hrest : readLE (writeLE m a (w + 1) v) (a + 1) w
        = readLE (writeLE m (a + 1) w (v / 256)) (a + 1) w := by
      apply readLE_congr
      intro x hx1 hx2
      rw [writeLE_inside _ _ _ _ _ (by omega) (by omega), writeLE_inside _ _ _ _ _ hx1 hx2]
      have hx : x - a = (x - (a + 1)) + 1 := by omega
      rw [hx, Nat.pow_succ, Nat.mul_comm, Nat.div_div_eq_div_mul]
    rw [hrest, ih, writeLE_inside _ _ _ _ _ (le_refl a) (by omega)]
    simp [Nat.pow_succ', Nat.mod_mul]

theorem readLE_writeLE_disjoint (m : Mem) (a w v a' w' : Nat)
    (h : a' + w' ≤ a ∨ a + w ≤ a') :
    readLE (writeLE m a w v) a' w' = readLE m a' w' := by
  apply readLE_congr
  intro x hx1 hx2
  exact writeLE_outside _ _ _ _ _ (by omega)

/-- A DWORD stored at index `i` is read back at byte offset `4 * i`. -/
theorem loadAt_storeDword_same (m : Mem) (v i val : Nat) (hv : v + 4 * i + 4 ≤ 2 ^ 32)
    (hval : val < 2 ^ 32) :
    loadAt (storeDword m v i val) v (4 * i) 4 = val := by
  have e : (v + 4 * i) % 2 ^ 32 = v + 4 * i := Nat.mod_eq_of_lt (by omega)
  simp only [loadAt, storeDword, elemOffset, DWORD, e, readLE_writeLE_same]
  rw [Nat.mod_eq_of_lt hval]
  exact Nat.mod_eq_of_lt (by norm_num; omega)

/-- A DWORD stored at index `i` leaves the bytes of another index as they were. -/
theorem loadAt_storeDword_other (m : Mem) (v i j val : Nat) (hi : v + 4 * i + 4 ≤ 2 ^ 32)
    (hj : v + 4 * j + 4 ≤ 2 ^ 32) (hij : i ≠ j) :
    loadAt (storeDword m v i val) v (4 * j) 4 = loadAt m v (4 * j) 4 := by
  have ei : (v + 4 * i) % 2 ^ 32 = v + 4 * i := Nat.mod_eq_of_lt (by omega)
  have ej : (v + 4 * j) % 2 ^ 32 = v + 4 * j := Nat.mod_eq_of_lt (by omega)
  simp only [loadAt, storeDword, elemOffset, DWORD, ei, ej]
  exact readLE_writeLE_disjoint _ _ _ _ _ _ (by omega)

/-! ## string -/

/-- C1: under the x86 ABI the union of `string` has size 16 and sits at offset
0, `size` is at offset 16, `max` at offset 20 and the struct has 24 bytes; the
DWORD indices 4 and 5 of the hint are the byte offsets 16 and 20 of `size` and
`max`; after the hint `size` holds 0 and `max` holds 15. -/
theorem string_layout_matches_hint (m : Mem) (v1 : Nat)
    (h : v1 + sizeOfStruct string ≤ 2 ^ 32) :
    unionOf string_union = ⟨16, 4⟩ ∧
    layout string = [⟨"", 0, 16⟩, ⟨"size", 16, 4⟩, ⟨"max", 20, 4⟩] ∧
    sizeOfStruct string = 24 ∧
    offsetOf string "size" = some (elemOffset DWORD 4) ∧ elemOffset DWORD 4 = 16 ∧
    offsetOf string "max" = some (elemOffset DWORD 5) ∧ elemOffset DWORD 5 = 20 ∧
    loadAt (string_hint m v1) v1 16 4 = 0 ∧
    loadAt (string_hint m v1) v1 20 4 = 15 := by
  have hs : sizeOfStruct string = 24 := by decide
  rw [hs] at h
  refine ⟨by decide, by decide, hs, by decide, by decide, by decide, by decide, ?_, ?_⟩
  · unfold string_hint
    rw [loadAt_storeDword_other _ v1 5 4 _ (by omega) (by omega) (by decide)]
    exact loadAt_storeDword_same _ v1 4 0 (by omega) (by norm_num)
  · unfold string_hint
    exact loadAt_storeDword_same _ v1 5 15 (by omega) (by norm_num)

/-- Witness of C1: a string object at address 4096 in a memory filled with
the byte 204. -/
theorem string_layout_matches_hint_witness :
    4096 + sizeOfStruct string ≤ 2 ^ 32 ∧
    loadAt (string_hint (fun _ => 204) 4096) 4096 20 4 = 15 :=
  ⟨by decide, (string_layout_matches_hint (fun _ => 204) 4096 (by decide)).2.2.2.2.2.2.2.2⟩

/-- C3: for every element type `T` of size `s = sizeof(T) ≥ 1` and element
count `n` with `start + n * s` representable in 32 bits, a vector whose start
pointer is `start` and whose end pointer is `start + n * s` has hinted size
`(end - start) / s = n`; and a vector just initialised by the hint
(`start = end = max = 0`) has size 0 for every `s ≥ 1`. -/
theorem vector_size_hint_recovers_count (T : CType) (m : Mem) (v2 start n : Nat)
    (hs : 1 ≤ T.size) (hrep : start + n * T.size < 2 ^ 32)
    (hv : v2 + sizeOfStruct (vector T) ≤ 2 ^ 32)
    (hstart : loadAt m v2 0 4 = start) :
    vector_size_hint m (start + n * T.size) v2 T.size = n ∧
    loadAt (vector_hint m v2) v2 0 4 = 0 ∧
    loadAt (vector_hint m v2) v2 4 4 = 0 ∧
    loadAt (vector_hint m v2) v2 8 4 = 0 ∧
    vector_size_hint (vector_hint m v2) (loadAt (vector_hint m v2) v2 4 4) v2 T.size = 0 := by
  have hsz : sizeOfStruct (vector T) = 12 := by
    show sizeOfStruct (vector char) = 12
    decide
  rw [hsz] at hv
  have key : ∀ (m' : Mem) (st k : Nat), st + k * T.size < 2 ^ 32 → loadAt m' v2 0 4 = st →
      vector_size_hint m' (st + k * T.size) v2 T.size = k := by
    intro m' st k hk hst
    have hload : loadDword m' v2 0 = st := by
      simpa [loadAt, loadDword, elemOffset, DWORD] using hst
    have hsub : sub32 (st + k * T.size) st = k * T.size := by
      unfold sub32; omega
    unfold vector_size_hint
    rw [hload, hsub]
    exact Nat.mul_div_cancel k (by omega)
  have h0 : loadAt (vector_hint m v2) v2 0 4 = 0 := by
    unfold vector_hint
    rw [loadAt_storeDword_other _ v2 2 0 _ (by omega) (by omega) (by decide),
      loadAt_storeDword_other _ v2 1 0 _ (by omega) (by omega) (by decide)]
    exact loadAt_storeDword_same _ v2 0 0 (by omega) (by norm_num)
  have h1 : loadAt (vector_hint m v2) v2 4 4 = 0 := by
    unfold vector_hint
    rw [loadAt_storeDword_other _ v2 2 1 _ (by omega) (by omega) (by decide)]
    exact loadAt_storeDword_same _ v2 1 0 (by omega) (by norm_num)
  have h2 : loadAt (vector_hint m v2) v2 8 4 = 0 := by
    unfold vector_hint
    exact loadAt_storeDword_same _ v2 2 0 (by omega) (by norm_num)
  refine ⟨key m start n hrep hstart, h0, h1, h2, ?_⟩
  rw [h1]
  have := key (vector_hint m v2) 0 0 (by norm_num) h0
  simpa using this

/-- Witness of C3: a vector of three 8-byte elements starting at address 64,
the vector object itself at address 0 of a memory whose first byte is 64. -/
theorem vector_size_hint_recovers_count_witness :
    vector_size_hint (fun x => if x = 0 then 64 else 0) (64 + 3 * 8) 0 8 = 3 :=
  (vector_size_hint_recovers_count unsigned_long_long (fun x => if x = 0 then 64 else 0)
    0 64 3 (by decide) (by decide) (by decide) (by decide)).1

/-! ## map -/

/-- C4: in `map_node<K, V>` the pointers `left`, `right`, `parent` are at
offsets 0, 4, 8 and the bools `bIsFirstNode`, `bColor` at offsets 12 and 13,
whatever `K` and `V`; the store of 257 = 0x0101 at offset 12, two bytes wide or
more, sets both bools to 1 and leaves the three pointers pointing to the node;
and for all values of the two bools the 16-bit word at offset 12 is 257 exactly
when both are true. -/
theorem map_sentinel_flags (K V : CType) (m : Mem) (v4 w : Nat) (hw : 2 ≤ w)
    (hv : v4 + 16 ≤ 2 ^ 32) :
    (layout (map_node K V)).take 5 =
      [⟨"left", 0, 4⟩, ⟨"right", 4, 4⟩, ⟨"parent", 8, 4⟩,
       ⟨"bIsFirstNode", 12, 1⟩, ⟨"bColor", 13, 1⟩] ∧
    (257 : Nat) = 0x0101 ∧
    loadAt (map_sentinel_hint m v4 w) v4 12 1 = 1 ∧
    loadAt (map_sentinel_hint m v4 w) v4 13 1 = 1 ∧
    loadAt (map_sentinel_hint m v4 w) v4 0 4 = v4 ∧
    loadAt (map_sentinel_hint m v4 w) v4 4 4 = v4 ∧
    loadAt (map_sentinel_hint m v4 w) v4 8 4 = v4 ∧
    (∀ b1 b2 : Bool,
      loadAt (store_flags m v4 b1 b2) v4 12 1 = boolByte b1 ∧
      loadAt (store_flags m v4 b1 b2) v4 13 1 = boolByte b2 ∧
      (loadAt (store_flags m v4 b1 b2) v4 12 2 = 257 ↔ b1 = true ∧ b2 = true)) := by
  have e0 : (v4 + 0) % 2 ^ 32 = v4 := Nat.mod_eq_of_lt (by omega)
  have e4 : (v4 + 4) % 2 ^ 32 = v4 + 4 := Nat.mod_eq_of_lt (by omega)
  have e8 : (v4 + 8) % 2 ^ 32 = v4 + 8 := Nat.mod_eq_of_lt (by omega)
  have e12 : (v4 + 12) % 2 ^ 32 = v4 + 12 := Nat.mod_eq_of_lt (by omega)
  have e13 : (v4 + 13) % 2 ^ 32 = v4 + 13 := Nat.mod_eq_of_lt (by omega)
  have hp : ptr.size = 4 := rfl
  have hb : bool.size = 1 := rfl
  have hv4 : v4 % 256 ^ 4 = v4 := Nat.mod_eq_of_lt (by norm_num; omega)
  refine ⟨?_, by norm_num, ?_, ?_, ?_, ?_, ?_, ?_⟩
  · simp [layout, layoutFrom, map_node, ptr, bool, roundUp]
  · simp only [loadAt, map_sentinel_hint, storeAt, e12, readLE]
    rw [writeLE_inside _ _ _ _ _ (le_refl _) (by omega)]
    simp
  · simp only [loadAt, map_sentinel_hint, storeAt, e12, e13, readLE]
    rw [writeLE_inside _ _ _ _ _ (by omega) (by omega)]
    have hsub : v4 + 13 - (v4 + 12) = 1 := by omega
    rw [hsub]
    norm_num
  · simp only [loadAt, map_sentinel_hint, storeAt, e0, e4, e8, e12, hp]
    rw [readLE_writeLE_disjoint _ _ _ _ _ _ (by omega),
      readLE_writeLE_disjoint _ _ _ _ _ _ (by omega),
      readLE_writeLE_disjoint _ _ _ _ _ _ (by omega), readLE_writeLE_same, hv4]
  · simp only [loadAt, map_sentinel_hint, storeAt, e0, e4, e8, e12, hp]
    rw [readLE_writeLE_disjoint _ _ _ _ _ _ (by omega),
      readLE_writeLE_disjoint _ _ _ _ _ _ (by omega), readLE_writeLE_same, hv4]
  · simp only [loadAt, map_sentinel_hint, storeAt, e0, e4, e8, e12, hp]
    rw [readLE_writeLE_disjoint _ _ _ _ _ _ (by omega), readLE_writeLE_same, hv4]
  · intro b1 b2
    have r12 : (store_flags m v4 b1 b2) (v4 + 12) = boolByte b1 := by
      simp only [store_flags, storeAt, e12, e13, hb]
      rw [writeLE_outside _ _ _ _ _ (by omega), writeLE_inside _ _ _ _ _ (le_refl _) (by omega)]
      cases b1 <;> simp [boolByte]
    have r13 : (store_flags m v4 b1 b2) (v4 + 13) = boolByte b2 := by
      simp only [store_flags, storeAt, e12, e13, hb]
      rw [writeLE_inside _ _ _ _ _ (le_refl _) (by omega)]
      cases b2 <;> simp [boolByte]
    simp only [loadAt, e12, e13, readLE, r12, r13]
    cases b1 <;> cases b2 <;> simp [boolByte]

/-- Witness of C4: a node of a `map<DWORD, DWORD>` at address 4096, the flags
stored by a 2-byte write. -/
theorem map_sentinel_flags_witness :
    loadAt (map_sentinel_hint (fun _ => 0) 4096 2) 4096 12 1 = 1 ∧
    loadAt (map_sentinel_hint (fun _ => 0) 4096 2) 4096 13 1 = 1 :=
  ⟨(map_sentinel_flags DWORD DWORD (fun _ => 0) 4096 2 (by decide) (by decide)).2.2.1,
   (map_sentinel_flags DWORD DWORD (fun _ => 0) 4096 2 (by decide) (by decide)).2.2.2.1⟩

/-! ## list -/

/-- C5: `list_node<float>` has 12 bytes (two 4-byte pointers and a 4-byte
float), and the constant 357913941 of the list hint is the largest number of
such nodes in a 32-bit address space: it is `(2^32 - 1) / 12`, that is
`357913941 * 12 ≤ 2^32 - 1 < 357913942 * 12`; the test of the hint fires on
exactly this size. -/
theorem list_max_elements_is_address_space_bound :
    layout (list_node float) = [⟨"forward", 0, 4⟩, ⟨"back", 4, 4⟩, ⟨"value", 8, 4⟩] ∧
    sizeOfStruct (list_node float) = 12 ∧
    list_max_elements = 357913941 ∧
    list_max_elements = (2 ^ 32 - 1) / sizeOfStruct (list_node float) ∧
    list_max_elements * sizeOfStruct (list_node float) ≤ 2 ^ 32 - 1 ∧
    2 ^ 32 - 1 < (list_max_elements + 1) * sizeOfStruct (list_node float) ∧
    (∀ size : Nat, list_too_long size = true ↔
      size = (2 ^ 32 - 1) / sizeOfStruct (list_node float)) := by
  have hsz : sizeOfStruct (list_node float) = 12 := by decide
  refine ⟨by decide, hsz, rfl, ?_, ?_, ?_, ?_⟩
  · rw [hsz]; norm_num [list_max_elements]
  · rw [hsz]; norm_num [list_max_elements]
  · rw [hsz]; norm_num [list_max_elements]
  · intro size
    rw [hsz]
    simp [list_too_long, list_max_elements]

/-! ## bitset -/

/-- C6, evaluated on the code: the declared extent `nBits / sizeof(word) / 8`
rounds down, so a bitset of 33 bits gets one 32-bit word (32 bits) or no 64-bit
word at all, and a bitset of 1 bit gets an empty array with either word. -/
theorem bitset_extent_rounds_down :
    bitset_extent unsigned_long 33 = 1 ∧
    bitset_extent unsigned_long 33 * (8 * unsigned_long.size) < 33 ∧
    bitset_extent unsigned_long_long 33 = 0 ∧
    bitset_extent unsigned_long_long 33 * (8 * unsigned_long_long.size) < 33 ∧
    bitset_extent unsigned_long 1 = 0 ∧
    bitset_extent unsigned_long_long 1 = 0 ∧
    sizeOfStruct (bitset unsigned_long 33) = 4 ∧
    sizeOfStruct (bitset unsigned_long_long 33) = 0 := by
  decide

/-- The declared extent is exact when the bit count is a whole number of
words. -/
theorem bitset_extent_exact_on_whole_words (word : CType) (k : Nat) (hw : 0 < word.size) :
    bitset_extent word (k * (8 * word.size)) * (8 * word.size) = k * (8 * word.size) := by
  unfold bitset_extent
  rw [Nat.div_div_eq_div_mul, Nat.mul_comm word.size 8,
    Nat.mul_div_cancel k (by omega : 0 < 8 * word.size)]

/-- C7: for every 32-bit bit position `p`, `p >> 5` is the index of the 32-bit
word (`unsigned long`) that contains bit `p` and `p >> 6` the index of the
64-bit word (`unsigned long long`) that contains it; the DWORD index
`2 * (p >> 6)` of the hint is byte offset `8 * (p >> 6)`, the offset of that
64-bit word in the array. -/
theorem bitset_shift_selects_word (p : Nat) (hp : p < 2 ^ 32) :
    8 * unsigned_long.size = 32 ∧
    32 * bitset_word_index 5 p ≤ p ∧ p < 32 * bitset_word_index 5 p + 32 ∧
    8 * unsigned_long_long.size = 64 ∧
    64 * bitset_word_index 6 p ≤ p ∧ p < 64 * bitset_word_index 6 p + 64 ∧
    elemOffset DWORD (bitset_dword_index p) = 8 * bitset_word_index 6 p ∧
    elemOffset DWORD (bitset_dword_index p) =
      elemOffset unsigned_long_long (bitset_word_index 6 p) := by
  have h5 : bitset_word_index 5 p = p / 32 := by
    simp [bitset_word_index, Nat.shiftRight_eq_div_pow]
  have h6 : bitset_word_index 6 p = p / 64 := by
    simp [bitset_word_index, Nat.shiftRight_eq_div_pow]
  have hd : bitset_dword_index p = 2 * (p / 64) := by
    unfold bitset_dword_index
    rw [h6]
    omega
  refine ⟨by decide, ?_, ?_, by decide, ?_, ?_, ?_, ?_⟩
  · rw [h5]; omega
  · rw [h5]; omega
  · rw [h6]; omega
  · rw [h6]; omega
  · rw [hd, h6]; simp only [elemOffset, DWORD]; omega
  · rw [hd, h6]; simp only [elemOffset, DWORD, unsigned_long_long]; omega

/-- Witness of C7: bit position 200 lies in 32-bit word 6 and in 64-bit
word 3. -/
theorem bitset_shift_selects_word_witness :
    32 * bitset_word_index 5 200 ≤ 200 ∧ 200 < 32 * bitset_word_index 5 200 + 32 :=
  ⟨(bitset_shift_selects_word 200 (by decide)).2.1,
   (bitset_shift_selects_word 200 (by decide)).2.2.1⟩

/-- C9: a bitset of 256 bits over `unsigned long long` has 4 words, that is 8
DWORDs, 32 bytes, exactly 256 bits; every bit position `p` that passes the
guard `v5 >= 256` is below 256, its word index `p >> 6` is below 4 and its
DWORD indices `2 * (p >> 6)` and `2 * (p >> 6) + 1` are below 8; position
256, which the guard rejects, has word index 4, out of bounds. -/
theorem bitset_guard_keeps_access_in_bounds (p : Nat) (hp : bitset_guard p = false) :
    bitset_extent unsigned_long_long 256 = 4 ∧
    sizeOfStruct (bitset unsigned_long_long 256) = 32 ∧
    sizeOfStruct (bitset unsigned_long_long 256) / DWORD.size = 8 ∧
    8 * sizeOfStruct (bitset unsigned_long_long 256) = 256 ∧
    p < 256 ∧
    bitset_word_index 6 p < bitset_extent unsigned_long_long 256 ∧
    bitset_dword_index p < 8 ∧ bitset_dword_index p + 1 < 8 ∧
    bitset_guard 256 = true ∧ bitset_word_index 6 256 = 4 ∧
    ¬ bitset_word_index 6 256 < bitset_extent unsigned_long_long 256 := by
  have hlt : p < 256 := by
    simpa [bitset_guard] using hp
  have he : bitset_extent unsigned_long_long 256 = 4 := by decide
  have h6 : bitset_word_index 6 p = p / 64 := by
    simp [bitset_word_index, Nat.shiftRight_eq_div_pow]
  have hd : bitset_dword_index p = 2 * (p / 64) := by
    unfold bitset_dword_index
    rw [h6]
    omega
  refine ⟨he, by decide, by decide, by decide, hlt, ?_, ?_, ?_, by decide, by decide,
    by decide⟩
  · rw [he, h6]; omega
  · rw [hd]; omega
  · rw [hd]; omega

/-- Witness of C9: the last bit, position 255, is in word 3. -/
theorem bitset_guard_keeps_access_in_bounds_witness :
    bitset_guard 255 = false ∧
    bitset_word_index 6 255 < bitset_extent unsigned_long_long 256 :=
  ⟨by decide, (bitset_guard_keeps_access_in_bounds 255 (by decide)).2.2.2.2.2.1⟩

/-! ## Layout invariants -/

theorem le_roundUp (n a : Nat) (ha : 0 < a) : n ≤ roundUp n a := by
  unfold roundUp
  have h1 := Nat.div_add_mod (n + a - 1) a
  have h2 := Nat.mod_lt (n + a - 1) ha
  have h3 : (n + a - 1) / a * a = a * ((n + a - 1) / a) := Nat.mul_comm _ _
  omega

/-- Whatever the members, provided their alignments are positive, the layout
rule places them at increasing offsets without overlap. -/
theorem layoutFrom_nonOverlapping (fs : List Field) : ∀ off : Nat,
    (∀ f ∈ fs, 0 < f.ty.align) →
    nonOverlapping ((layoutFrom off fs).map Slot.pair) = true ∧
    offsetMonotonic ((layoutFrom off fs).map Slot.pair) = true ∧
    (∀ s ∈ layoutFrom off fs, off ≤ s.offset) := by
  induction fs with
  | nil => intro off _; simp [layoutFrom, nonOverlapping, offsetMonotonic]
  | cons f fs ih =>
    intro off hpos
    have hf : 0 < f.ty.align := hpos f (List.mem_cons_self _ _)
    have hle := le_roundUp off f.ty.align hf
    obtain ⟨ih1, ih2, ih3⟩ :=
      ih (roundUp off f.ty.align + f.ty.size) (fun g hg => hpos g (List.mem_cons_of_mem _ hg))
    refine ⟨?_, ?_, ?_⟩
    · cases fs with
      | nil => simp [layoutFrom, nonOverlapping]
      | cons g gs =>
        have hg := ih3 ⟨g.name, roundUp (roundUp off f.ty.align + f.ty.size) g.ty.align,
          g.ty.size⟩ (by simp [layoutFrom])
        simp only [layoutFrom, List.map_cons, nonOverlapping, Slot.pair, Bool.and_eq_true,
          decide_eq_true_eq] at ih1 hg ⊢
        exact ⟨hg, ih1⟩
    · cases fs with
      | nil => simp [layoutFrom, offsetMonotonic]
      | cons g gs =>
        have hg := ih3 ⟨g.name, roundUp (roundUp off f.ty.align + f.ty.size) g.ty.align,
          g.ty.size⟩ (by simp [layoutFrom])
        simp only [layoutFrom, List.map_cons, offsetMonotonic, Slot.pair, Bool.and_eq_true,
          decide_eq_true_eq] at ih2 hg ⊢
        exact ⟨by omega, ih2⟩
    · intro s hs
      simp only [layoutFrom, List.mem_cons] at hs
      rcases hs with rfl | hs
      · exact hle
      · have := ih3 s hs
        omega

/-- C8: the structs `string`, `vector<T>`, `map` and `list` have the shapes
(0,16),(16,4),(20,4); (0,4),(4,4),(8,4); (0,4),(4,4); (0,4),(4,4); in each the
members are in increasing order of offset and do not overlap, the widest
member is 4-byte aligned, and the total size (24, 12, 8, 8) is the last
member's offset plus size rounded up to that alignment. -/
theorem fixed_layouts_well_formed (T : CType) :
    (shape string = [(0, 16), (16, 4), (20, 4)] ∧
      offsetMonotonic (shape string) = true ∧ nonOverlapping (shape string) = true ∧
      widestAlign string = 4 ∧ sizeOfStruct string = 24 ∧
      sizeOfStruct string = roundUp (lastEnd (shape string)) (widestAlign string)) ∧
    (shape (vector T) = [(0, 4), (4, 4), (8, 4)] ∧
      offsetMonotonic (shape (vector T)) = true ∧ nonOverlapping (shape (vector T)) = true ∧
      widestAlign (vector T) = 4 ∧ sizeOfStruct (vector T) = 12 ∧
      sizeOfStruct (vector T) =
        roundUp (lastEnd (shape (vector T))) (widestAlign (vector T))) ∧
    (shape map = [(0, 4), (4, 4)] ∧
      offsetMonotonic (shape map) = true ∧ nonOverlapping (shape map) = true ∧
      widestAlign map = 4 ∧ sizeOfStruct map = 8 ∧
      sizeOfStruct map = roundUp (lastEnd (shape map)) (widestAlign map)) ∧
    (shape list = [(0, 4), (4, 4)] ∧
      offsetMonotonic (shape list) = true ∧ nonOverlapping (shape list) = true ∧
      widestAlign list = 4 ∧ sizeOfStruct list = 8 ∧
      sizeOfStruct list = roundUp (lastEnd (shape list)) (widestAlign list)) := by
  have hv : vector T = vector char := rfl
  rw [hv]
  decide

/-- C10: for every well-formed 4-byte type `T`, `list_node<T>` and `vector<T>`
have the same shape (0,4),(4,4),(8,4) and the same size 12, and `map` and
`list` have the same shape (0,4),(4,4) and the same size 8. -/
theorem shape_does_not_determine_family (T : CType) (hsize : T.size = 4) (hT : T.valid) :
    shape (list_node T) = shape (vector T) ∧
    shape (list_node T) = [(0, 4), (4, 4), (8, 4)] ∧
    shape (vector T) = [(0, 4), (4, 4), (8, 4)] ∧
    sizeOfStruct (list_node T) = 12 ∧ sizeOfStruct (vector T) = 12 ∧
    shape map = shape list ∧
    shape map = [(0, 4), (4, 4)] ∧ shape list = [(0, 4), (4, 4)] ∧
    sizeOfStruct map = 8 ∧ sizeOfStruct list = 8 := by
  obtain ⟨sz, al⟩ := T
  obtain ⟨hpos, hdvd⟩ := hT
  simp only at hsize hpos hdvd
  subst hsize
  have hle : al ≤ 4 := Nat.le_of_dvd (by norm_num) hdvd
  have hv : vector ⟨4, al⟩ = vector char := rfl
  rw [hv]
  interval_cases al
  · decide
  · decide
  · exact absurd hdvd (by decide)
  · decide

/-- Witness of C10: `T = float`. -/
theorem shape_does_not_determine_family_witness :
    float.size = 4 ∧ float.valid ∧ shape (list_node float) = shape (vector float) :=
  ⟨rfl, ⟨by decide, by decide⟩,
   (shape_does_not_determine_family float rfl ⟨by decide, by decide⟩).1⟩

end STLGuide
